import Mathlib

/-!
Verification of `assets/maps/grassy/extrude_tileset.py`.

The script reads a source image that must tessellate into a grid of
`TILE_W × TILE_H` tiles, and produces an output image in which every tile is
surrounded by a duplicated ring (`EXTRUDE` pixels wide) of its own edge and
corner pixels, with an outer `BORDER` and inter-tile `SPACING`.

We model images as a pair of dimensions together with a total pixel-lookup
function on integer coordinates (meaningful on `[0, w) × [0, h)`), and the
PIL operations used by the script (`new`, `crop`, `resize` with the NEAREST
filter, `paste`, `putpixel`, `getpixel`) as pure functions on that model.
Python's `//` and PIL's nearest-neighbour index arithmetic are floor
divisions, which is what `/` on `Int` denotes in Lean.  The `SystemExit`
raised on a grid mismatch is modelled by `Except.error` carrying the exact
message string; file input/output is outside the model.
-/

/-- An RGBA pixel value, as returned by PIL's `getpixel` on an RGBA image. -/
abbrev Pixel := Nat × Nat × Nat × Nat

/-- A raster image: a width, a height, and a pixel lookup.  The lookup is a
total function on `Int × Int`; only coordinates in `[0, w) × [0, h)` are
meaningful. -/
structure Img where
  w : Nat
  h : Nat
  px : Int → Int → Pixel

/-- `Image.new("RGBA", (w, h), c)`: a fresh `w × h` image filled with `c`. -/
def Img.new (w h : Nat) (c : Pixel) : Img := ⟨w, h, fun _ _ => c⟩

/-- `im.crop((l, t, r, b))`: the `(r-l) × (b-t)` sub-image whose pixel
`(x, y)` is pixel `(l+x, t+y)` of `im`. -/
def Img.crop (im : Img) (l t r b : Int) : Img :=
  ⟨(r - l).toNat, (b - t).toNat, fun x y => im.px (l + x) (t + y)⟩

/-- `im.resize((w, h), Image.NEAREST)`: output pixel `(x, y)` samples the
source at the nearest-neighbour index `floor((x + 0.5) * im.w / w)`, written
with integer floor division as `((2*x + 1) * im.w) / (2*w)`, and likewise
vertically. -/
def Img.resizeNearest (im : Img) (w h : Nat) : Img :=
  ⟨w, h, fun x y =>
    im.px (((2*x + 1) * (im.w : Int)) / (2*(w : Int)))
          (((2*y + 1) * (im.h : Int)) / (2*(h : Int)))⟩

/-- `dst.paste(src, (x0, y0))`: pixels in the box
`[x0, x0+src.w) × [y0, y0+src.h)` are taken from `src`, the rest of `dst`
is unchanged. -/
def Img.paste (dst src : Img) (x0 y0 : Int) : Img :=
  ⟨dst.w, dst.h, fun x y =>
    if x0 ≤ x ∧ x < x0 + (src.w : Int) ∧ y0 ≤ y ∧ y < y0 + (src.h : Int) then
      src.px (x - x0) (y - y0)
    else
      dst.px x y⟩

/-- `im.putpixel((x0, y0), c)`: overwrite the single pixel `(x0, y0)`. -/
def Img.putpixel (im : Img) (x0 y0 : Int) (c : Pixel) : Img :=
  ⟨im.w, im.h, fun x y => if x = x0 ∧ y = y0 then c else im.px x y⟩

/-- `im.getpixel((x, y))`. -/
def Img.getpixel (im : Img) (x y : Int) : Pixel := im.px x y

@[simp] theorem Img.new_w (w h : Nat) (c : Pixel) : (Img.new w h c).w = w := rfl

@[simp] theorem Img.new_h (w h : Nat) (c : Pixel) : (Img.new w h c).h = h := rfl

@[simp] theorem Img.new_px (w h : Nat) (c : Pixel) (x y : Int) :
    (Img.new w h c).px x y = c := rfl

@[simp] theorem Img.paste_w (dst src : Img) (x0 y0 : Int) :
    (dst.paste src x0 y0).w = dst.w := rfl

@[simp] theorem Img.paste_h (dst src : Img) (x0 y0 : Int) :
    (dst.paste src x0 y0).h = dst.h := rfl

@[simp] theorem Img.putpixel_w (im : Img) (x0 y0 : Int) (c : Pixel) :
    (im.putpixel x0 y0 c).w = im.w := rfl

@[simp] theorem Img.putpixel_h (im : Img) (x0 y0 : Int) (c : Pixel) :
    (im.putpixel x0 y0 c).h = im.h := rfl

theorem Img.paste_px (dst src : Img) (x0 y0 x y : Int) :
    (dst.paste src x0 y0).px x y =
      if x0 ≤ x ∧ x < x0 + (src.w : Int) ∧ y0 ≤ y ∧ y < y0 + (src.h : Int) then
        src.px (x - x0) (y - y0)
      else dst.px x y := rfl

theorem Img.putpixel_px (im : Img) (x0 y0 : Int) (c : Pixel) (x y : Int) :
    (im.putpixel x0 y0 c).px x y = if x = x0 ∧ y = y0 then c else im.px x y := rfl

theorem Img.crop_w (im : Img) (l t r b : Int) : (im.crop l t r b).w = (r - l).toNat := rfl

theorem Img.crop_h (im : Img) (l t r b : Int) : (im.crop l t r b).h = (b - t).toNat := rfl

theorem Img.crop_px (im : Img) (l t r b x y : Int) :
    (im.crop l t r b).px x y = im.px (l + x) (t + y) := rfl

theorem Img.resizeNearest_w (im : Img) (w h : Nat) : (im.resizeNearest w h).w = w := rfl

theorem Img.resizeNearest_h (im : Img) (w h : Nat) : (im.resizeNearest w h).h = h := rfl

theorem Img.resizeNearest_px (im : Img) (w h : Nat) (x y : Int) :
    (im.resizeNearest w h).px x y =
      im.px (((2*x + 1) * (im.w : Int)) / (2*(w : Int)))
            (((2*y + 1) * (im.h : Int)) / (2*(h : Int))) := rfl

/-! ## The script's configuration and geometry -/

/-- The configuration constants at the top of the script. -/
structure Cfg where
  TILE_W : Nat
  TILE_H : Nat
  EXTRUDE : Nat
  BORDER : Nat
  SPACING : Nat

/-- The fixed configuration in the source:
`TILE_W = 16, TILE_H = 16, EXTRUDE = 1, BORDER = 1, SPACING = 0`. -/
def grassyCfg : Cfg := ⟨16, 16, 1, 1, 0⟩

/-- `step = TILE_W + 2*EXTRUDE + SPACING`: distance between tile origins in
the output. -/
def step (c : Cfg) : Nat := c.TILE_W + 2*c.EXTRUDE + c.SPACING

/-- `out_w = BORDER*2 + cols*step - SPACING` (the last tile has no trailing
spacing). -/
def out_w (c : Cfg) (cols : Nat) : Nat := c.BORDER*2 + cols * step c - c.SPACING

/-- `out_h = BORDER*2 + rows*step - SPACING`. -/
def out_h (c : Cfg) (rows : Nat) : Nat := c.BORDER*2 + rows * step c - c.SPACING

/-- The corner loops at the end of `copy_tile`: for each
`ox, oy ∈ range(EXTRUDE)` write the four corner pixels
`TL, TR, BL, BR` at `(dx-1-ox, dy-1-oy)`, `(dx+TILE_W+ox, dy-1-oy)`,
`(dx-1-ox, dy+TILE_H+oy)`, `(dx+TILE_W+ox, dy+TILE_H+oy)`. -/
def cornerWrites (c : Cfg) (o : Img) (dx dy : Int) (TL TR BL BR : Pixel) : Img :=
  (List.range c.EXTRUDE).foldl (fun o1 (ox : Nat) =>
    (List.range c.EXTRUDE).foldl (fun o2 (oy : Nat) =>
      ((((o2.putpixel (dx - 1 - (ox : Int)) (dy - 1 - (oy : Int)) TL).putpixel
          (dx + c.TILE_W + (ox : Int)) (dy - 1 - (oy : Int)) TR).putpixel
          (dx - 1 - (ox : Int)) (dy + c.TILE_H + (oy : Int)) BL).putpixel
          (dx + c.TILE_W + (ox : Int)) (dy + c.TILE_H + (oy : Int)) BR)) o1) o

/-- `copy_tile(cx, cy)`: crop the source tile, paste it at
`(dx, dy) = (BORDER + cx*step + EXTRUDE, BORDER + cy*step + EXTRUDE)`,
paste the four nearest-neighbour edge strips around it, then write the four
corner blocks pixel by pixel. -/
def copy_tile (c : Cfg) (im o : Img) (cx cy : Nat) : Img :=
  let sx : Int := (cx : Int) * c.TILE_W
  let sy : Int := (cy : Int) * c.TILE_H
  let tile := im.crop sx sy (sx + c.TILE_W) (sy + c.TILE_H)
  let dx : Int := (c.BORDER : Int) + (cx : Int) * step c + c.EXTRUDE
  let dy : Int := (c.BORDER : Int) + (cy : Int) * step c + c.EXTRUDE
  let o1 := o.paste tile dx dy
  let L := (tile.crop 0 0 1 c.TILE_H).resizeNearest c.EXTRUDE c.TILE_H
  let R := (tile.crop ((c.TILE_W : Int) - 1) 0 c.TILE_W c.TILE_H).resizeNearest c.EXTRUDE c.TILE_H
  let T := (tile.crop 0 0 c.TILE_W 1).resizeNearest c.TILE_W c.EXTRUDE
  let B := (tile.crop 0 ((c.TILE_H : Int) - 1) c.TILE_W c.TILE_H).resizeNearest c.TILE_W c.EXTRUDE
  let o2 := o1.paste L (dx - c.EXTRUDE) dy
  let o3 := o2.paste R (dx + c.TILE_W) dy
  let o4 := o3.paste T dx (dy - c.EXTRUDE)
  let o5 := o4.paste B dx (dy + c.TILE_H)
  let TL := tile.getpixel 0 0
  let TR := tile.getpixel ((c.TILE_W : Int) - 1) 0
  let BL := tile.getpixel 0 ((c.TILE_H : Int) - 1)
  let BR := tile.getpixel ((c.TILE_W : Int) - 1) ((c.TILE_H : Int) - 1)
  cornerWrites c o5 dx dy TL TR BL BR

/-- The main loop of the script: allocate the transparent output canvas and
run `copy_tile(cx, cy)` for `cy in range(rows)`, `cx in range(cols)` with
`cols = W // TILE_W` and `rows = H // TILE_H`. -/
def buildOutput (c : Cfg) (im : Img) : Img :=
  let cols := im.w / c.TILE_W
  let rows := im.h / c.TILE_H
  (List.range rows).foldl (fun o cy =>
    (List.range cols).foldl (fun o2 cx => copy_tile c im o2 cx cy) o)
    (Img.new (out_w c cols) (out_h c rows) (0, 0, 0, 0))

/-- The whole transformation, `extrude(sourceImage, …)` in the spec: the
grid-fit check `cols*TILE_W != W or rows*TILE_H != H` raises
`SystemExit` (modelled as `Except.error` with the script's message, the
process terminating with no output image), otherwise the populated output
canvas is produced. -/
def extrude (c : Cfg) (im : Img) : Except String Img :=
  let cols := im.w / c.TILE_W
  let rows := im.h / c.TILE_H
  if cols * c.TILE_W ≠ im.w ∨ rows * c.TILE_H ≠ im.h then
    Except.error ("Input is not a tight " ++ toString c.TILE_W ++ "x" ++
      toString c.TILE_H ++ " grid: " ++ toString im.w ++ "x" ++ toString im.h)
  else
    Except.ok (buildOutput c im)

/-- The extruded region of the tile at grid coordinate `(cx, cy)` in the
output: its core `[dx, dx + TILE_W) × [dy, dy + TILE_H)` extended by
`EXTRUDE` pixels on every side (edge strips and corner blocks), where
`dx = BORDER + cx*step + EXTRUDE` as in `copy_tile`. -/
def inRegion (c : Cfg) (cx cy : Nat) (x y : Int) : Prop :=
  (c.BORDER : Int) + (cx : Int) * step c ≤ x ∧
  x < (c.BORDER : Int) + (cx : Int) * step c + (c.TILE_W + 2*c.EXTRUDE : Nat) ∧
  (c.BORDER : Int) + (cy : Int) * step c ≤ y ∧
  y < (c.BORDER : Int) + (cy : Int) * step c + (c.TILE_H + 2*c.EXTRUDE : Nat)

example : step grassyCfg = 18 := by decide

example : out_w grassyCfg 2 = 38 := by decide

/-! ## Pixel-level characterization of `copy_tile` at the fixed config

At `grassyCfg` the tile at `(cx, cy)` is written to the square
`[1 + 18*cx, 19 + 18*cx) × [1 + 18*cy, 19 + 18*cy)`, and the value written
at `(x, y)` is the source pixel of the tile clamped to the tile's core:
column `16*cx + clamp(x - dx)`, row `16*cy + clamp(y - dy)` with
`dx = 2 + 18*cx`, `dy = 2 + 18*cy` and `clamp t = max 0 (min 15 t)`. -/

theorem range_one_eq : List.range 1 = [0] := by decide

theorem grassyCfg_TILE_W : grassyCfg.TILE_W = 16 := rfl

theorem grassyCfg_TILE_H : grassyCfg.TILE_H = 16 := rfl

theorem grassyCfg_EXTRUDE : grassyCfg.EXTRUDE = 1 := rfl

theorem grassyCfg_BORDER : grassyCfg.BORDER = 1 := rfl

theorem grassyCfg_SPACING : grassyCfg.SPACING = 0 := rfl

theorem step_grassy : step grassyCfg = 18 := rfl

theorem toNat_sixteen : (16 : Int).toNat = 16 := rfl

/-- At `EXTRUDE = 1` the corner loops perform exactly four `putpixel`s, the
last write winning (the four coordinates are in fact distinct). -/
theorem cornerWrites_one (o : Img) (dx dy : Int) (TL TR BL BR : Pixel) (x y : Int) :
    (cornerWrites grassyCfg o dx dy TL TR BL BR).px x y =
      if x = dx + 16 ∧ y = dy + 16 then BR
      else if x = dx - 1 ∧ y = dy + 16 then BL
      else if x = dx + 16 ∧ y = dy - 1 then TR
      else if x = dx - 1 ∧ y = dy - 1 then TL
      else o.px x y := by
  simp only [cornerWrites, grassyCfg_EXTRUDE, grassyCfg_TILE_W, grassyCfg_TILE_H,
    range_one_eq, List.foldl_cons, List.foldl_nil, Img.putpixel_px,
    Nat.cast_zero, Nat.cast_ofNat, sub_zero, add_zero]

set_option maxHeartbeats 1600000 in
theorem copy_tile_px_frame (im o : Img) (cx cy : Nat) (x y : Int)
    (h : ¬ inRegion grassyCfg cx cy x y) :
    (copy_tile grassyCfg im o cx cy).px x y = o.px x y := by
  simp only [inRegion, grassyCfg_TILE_W, grassyCfg_TILE_H, grassyCfg_EXTRUDE,
    grassyCfg_BORDER, step_grassy] at h
  simp only [copy_tile]
  rw [cornerWrites_one]
  simp only [Img.paste_px, Img.crop_w, Img.crop_h, Img.crop_px,
    Img.resizeNearest_w, Img.resizeNearest_h, Img.resizeNearest_px, Img.getpixel,
    grassyCfg_TILE_W, grassyCfg_TILE_H, grassyCfg_EXTRUDE, grassyCfg_BORDER,
    step_grassy]
  split_ifs <;> first
    | rfl
    | (exfalso; omega)

set_option maxHeartbeats 1600000 in
theorem copy_tile_px_hit (im o : Img) (cx cy : Nat) (x y : Int)
    (h : inRegion grassyCfg cx cy x y) :
    (copy_tile grassyCfg im o cx cy).px x y =
      im.px ((cx : Int) * 16 + max 0 (min 15 (x - (2 + 18*(cx : Int)))))
            ((cy : Int) * 16 + max 0 (min 15 (y - (2 + 18*(cy : Int))))) := by
  simp only [inRegion, grassyCfg_TILE_W, grassyCfg_TILE_H, grassyCfg_EXTRUDE,
    grassyCfg_BORDER, step_grassy] at h
  simp only [copy_tile]
  rw [cornerWrites_one]
  simp only [Img.paste_px, Img.crop_w, Img.crop_h, Img.crop_px,
    Img.resizeNearest_w, Img.resizeNearest_h, Img.resizeNearest_px, Img.getpixel,
    grassyCfg_TILE_W, grassyCfg_TILE_H, grassyCfg_EXTRUDE, grassyCfg_BORDER,
    step_grassy, sub_zero, sub_sub_cancel, Int.toNat_one, toNat_sixteen,
    Nat.cast_ofNat, Nat.cast_one, Nat.cast_zero, mul_one, add_zero]
  split_ifs <;> first
    | (exfalso; omega)
    | (exact congrArg₂ im.px (by omega) (by omega))

/-! ## Dimension invariance of the tile loop -/

theorem foldl_w {α : Type} (f : Img → α → Img) (hw : ∀ o a, (f o a).w = o.w) :
    ∀ (l : List α) (o : Img), (l.foldl f o).w = o.w
  | [], _ => rfl
  | a :: t, o => by rw [List.foldl_cons, foldl_w f hw t, hw]

theorem foldl_h {α : Type} (f : Img → α → Img) (hh : ∀ o a, (f o a).h = o.h) :
    ∀ (l : List α) (o : Img), (l.foldl f o).h = o.h
  | [], _ => rfl
  | a :: t, o => by rw [List.foldl_cons, foldl_h f hh t, hh]

theorem cornerWrites_w (c : Cfg) (o : Img) (dx dy : Int) (p1 p2 p3 p4 : Pixel) :
    (cornerWrites c o dx dy p1 p2 p3 p4).w = o.w := by
  unfold cornerWrites
  refine foldl_w _ ?_ _ o
  intro o1 ox
  refine foldl_w _ ?_ _ o1
  intro o2 oy
  rfl

theorem cornerWrites_h (c : Cfg) (o : Img) (dx dy : Int) (p1 p2 p3 p4 : Pixel) :
    (cornerWrites c o dx dy p1 p2 p3 p4).h = o.h := by
  unfold cornerWrites
  refine foldl_h _ ?_ _ o
  intro o1 ox
  refine foldl_h _ ?_ _ o1
  intro o2 oy
  rfl

theorem copy_tile_w (c : Cfg) (im o : Img) (cx cy : Nat) :
    (copy_tile c im o cx cy).w = o.w := by
  simp only [copy_tile, cornerWrites_w, Img.paste_w]

theorem copy_tile_h (c : Cfg) (im o : Img) (cx cy : Nat) :
    (copy_tile c im o cx cy).h = o.h := by
  simp only [copy_tile, cornerWrites_h, Img.paste_h]

theorem buildOutput_w (c : Cfg) (im : Img) :
    (buildOutput c im).w = out_w c (im.w / c.TILE_W) := by
  simp only [buildOutput]
  refine (foldl_w _ (fun o cy => ?_) _ _).trans (by simp)
  exact foldl_w _ (fun o2 cx => copy_tile_w c im o2 cx cy) _ o

theorem buildOutput_h (c : Cfg) (im : Img) :
    (buildOutput c im).h = out_h c (im.h / c.TILE_H) := by
  simp only [buildOutput]
  refine (foldl_h _ (fun o cy => ?_) _ _).trans (by simp)
  exact foldl_h _ (fun o2 cx => copy_tile_h c im o2 cx cy) _ o

/-! ## The tile loop as a fold over an explicit coordinate list -/

/-- The body of the main loop applied to an explicit list of grid
coordinates, at the script's configuration. -/
def applyTiles (im o : Img) (l : List (Nat × Nat)) : Img :=
  l.foldl (fun acc p => copy_tile grassyCfg im acc p.1 p.2) o

/-- The row-major coordinate order of the main loop:
`(cx, cy)` for `cy in range(rows)`, `cx in range(cols)`. -/
def rowMajor (cols rows : Nat) : List (Nat × Nat) :=
  (List.range rows).flatMap (fun cy => (List.range cols).map (fun cx => (cx, cy)))

theorem foldl_flatMap {α β γ : Type} (g : α → List β) (f : γ → β → γ) :
    ∀ (l : List α) (b : γ),
      (l.flatMap g).foldl f b = l.foldl (fun acc a => (g a).foldl f acc) b
  | [], _ => rfl
  | a :: t, b => by
      rw [List.flatMap_cons, List.foldl_append, List.foldl_cons, foldl_flatMap g f t]

theorem buildOutput_eq_applyTiles (im : Img) :
    buildOutput grassyCfg im =
      applyTiles im
        (Img.new (out_w grassyCfg (im.w / 16)) (out_h grassyCfg (im.h / 16)) (0, 0, 0, 0))
        (rowMajor (im.w / 16) (im.h / 16)) := by
  simp only [buildOutput, applyTiles, rowMajor, grassyCfg_TILE_W, grassyCfg_TILE_H]
  rw [foldl_flatMap]
  congr 1
  funext o cy
  rw [List.foldl_map]

theorem mem_rowMajor {cols rows : Nat} {p : Nat × Nat} :
    p ∈ rowMajor cols rows ↔ p.1 < cols ∧ p.2 < rows := by
  cases p with
  | mk a b =>
    simp only [rowMajor, List.mem_flatMap, List.mem_map, List.mem_range, Prod.mk.injEq]
    constructor
    · rintro ⟨cy, hcy, cx, hcx, rfl, rfl⟩
      exact ⟨hcx, hcy⟩
    · rintro ⟨h1, h2⟩
      exact ⟨b, h2, a, h1, rfl, rfl⟩

theorem rowMajor_nodup (cols : Nat) : ∀ rows : Nat, (rowMajor cols rows).Nodup
  | 0 => by simp [rowMajor]
  | rows + 1 => by
      have ih := rowMajor_nodup cols rows
      have heq : rowMajor cols (rows + 1) =
          rowMajor cols rows ++ (List.range cols).map (fun cx => (cx, rows)) := by
        simp only [rowMajor, List.range_succ, List.flatMap_append, List.flatMap_cons,
          List.flatMap_nil, List.append_nil]
      rw [heq]
      refine List.Nodup.append ih ?_ ?_
      · refine List.Nodup.map ?_ (List.nodup_range cols)
        intro a b hab
        simpa using hab
      · intro p hp1 hp2
        have h1 : p.2 < rows := (mem_rowMajor.mp hp1).2
        have h2 : p.2 = rows := by
          rcases List.mem_map.mp hp2 with ⟨cx, _, rfl⟩
          rfl
        omega

/-! ## Disjointness of tile regions at the fixed configuration -/

theorem inRegion_grassy_iff (cx cy : Nat) (x y : Int) :
    inRegion grassyCfg cx cy x y ↔
      1 + 18*(cx : Int) ≤ x ∧ x < 19 + 18*(cx : Int) ∧
      1 + 18*(cy : Int) ≤ y ∧ y < 19 + 18*(cy : Int) := by
  simp only [inRegion, grassyCfg_TILE_W, grassyCfg_TILE_H, grassyCfg_EXTRUDE,
    grassyCfg_BORDER, step_grassy]
  omega

theorem region_unique (cx cy cx' cy' : Nat) (x y : Int)
    (h : inRegion grassyCfg cx cy x y) (h' : inRegion grassyCfg cx' cy' x y) :
    cx = cx' ∧ cy = cy' := by
  rw [inRegion_grassy_iff] at h h'
  omega

/-! ## Pixel characterization of the whole loop -/

theorem applyTiles_cons (im o : Img) (p : Nat × Nat) (t : List (Nat × Nat)) :
    applyTiles im o (p :: t) = applyTiles im (copy_tile grassyCfg im o p.1 p.2) t := rfl

theorem applyTiles_px_frame (im : Img) (l : List (Nat × Nat)) :
    ∀ (o : Img) (x y : Int), (∀ p ∈ l, ¬ inRegion grassyCfg p.1 p.2 x y) →
      (applyTiles im o l).px x y = o.px x y := by
  induction l with
  | nil => intro o x y _; rfl
  | cons p t ih =>
      intro o x y h
      have h1 : ¬ inRegion grassyCfg p.1 p.2 x y := h p (List.mem_cons_self p t)
      rw [applyTiles_cons]
      calc (applyTiles im (copy_tile grassyCfg im o p.1 p.2) t).px x y
          = (copy_tile grassyCfg im o p.1 p.2).px x y :=
            ih _ x y (fun q hq => h q (List.mem_cons_of_mem p hq))
        _ = o.px x y := copy_tile_px_frame im o p.1 p.2 x y h1

theorem applyTiles_px_hit (im : Img) (cx cy : Nat) (x y : Int)
    (hin : inRegion grassyCfg cx cy x y) (l : List (Nat × Nat)) :
    ∀ (o : Img), (cx, cy) ∈ l → l.Nodup →
      (applyTiles im o l).px x y =
        im.px ((cx : Int) * 16 + max 0 (min 15 (x - (2 + 18*(cx : Int)))))
              ((cy : Int) * 16 + max 0 (min 15 (y - (2 + 18*(cy : Int))))) := by
  induction l with
  | nil => intro o hmem _; exact absurd hmem (List.not_mem_nil _)
  | cons p t ih =>
      intro o hmem hnd
      by_cases hp : p = (cx, cy)
      · subst hp
        have htail : ∀ q ∈ t, ¬ inRegion grassyCfg q.1 q.2 x y := by
          intro q hq hqin
          have hqc := region_unique q.1 q.2 cx cy x y hqin hin
          have hq2 : q = (cx, cy) := by
            cases q with
            | mk qa qb => simpa using hqc
          rw [hq2] at hq
          exact (List.nodup_cons.mp hnd).1 hq
        rw [applyTiles_cons]
        calc (applyTiles im (copy_tile grassyCfg im o cx cy) t).px x y
            = (copy_tile grassyCfg im o cx cy).px x y :=
              applyTiles_px_frame im t _ x y htail
          _ = _ := copy_tile_px_hit im o cx cy x y hin
      · have hmem' : (cx, cy) ∈ t := by
          rcases List.mem_cons.mp hmem with h | h
          · exact absurd h.symm hp
          · exact h
        rw [applyTiles_cons]
        exact ih (copy_tile grassyCfg im o p.1 p.2) hmem' (List.nodup_cons.mp hnd).2

theorem buildOutput_px_hit (im : Img) (cx cy : Nat) (hcx : cx < im.w / 16)
    (hcy : cy < im.h / 16) (x y : Int) (hin : inRegion grassyCfg cx cy x y) :
    (buildOutput grassyCfg im).px x y =
      im.px ((cx : Int) * 16 + max 0 (min 15 (x - (2 + 18*(cx : Int)))))
            ((cy : Int) * 16 + max 0 (min 15 (y - (2 + 18*(cy : Int))))) := by
  rw [buildOutput_eq_applyTiles]
  exact applyTiles_px_hit im cx cy x y hin _ _
    (mem_rowMajor.mpr ⟨hcx, hcy⟩) (rowMajor_nodup _ _)

theorem buildOutput_px_frame (im : Img) (x y : Int)
    (h : ∀ cx cy : Nat, cx < im.w / 16 → cy < im.h / 16 →
      ¬ inRegion grassyCfg cx cy x y) :
    (buildOutput grassyCfg im).px x y = (0, 0, 0, 0) := by
  have h' : ∀ p ∈ rowMajor (im.w / 16) (im.h / 16),
      ¬ inRegion grassyCfg p.1 p.2 x y := by
    intro p hp
    exact h p.1 p.2 (mem_rowMajor.mp hp).1 (mem_rowMajor.mp hp).2
  rw [buildOutput_eq_applyTiles]
  exact (applyTiles_px_frame im (rowMajor (im.w / 16) (im.h / 16))
    (Img.new (out_w grassyCfg (im.w / 16)) (out_h grassyCfg (im.h / 16)) (0, 0, 0, 0))
    x y h').trans rfl

/-! ## Entry point behaviour -/

theorem extrude_ok_of_div (im : Img) (hw : im.w % 16 = 0) (hh : im.h % 16 = 0) :
    extrude grassyCfg im = Except.ok (buildOutput grassyCfg im) := by
  simp only [extrude, grassyCfg_TILE_W, grassyCfg_TILE_H]
  rw [if_neg (by omega : ¬(im.w / 16 * 16 ≠ im.w ∨ im.h / 16 * 16 ≠ im.h))]

/-- A 32 × 32 test image whose pixel values record their coordinates. -/
def sampleIm : Img := ⟨32, 32, fun x y => (x.toNat % 256, y.toNat % 256, 7, 255)⟩

/-- A 17 × 16 test image: its width is not divisible by 16. -/
def badIm : Img := ⟨17, 16, fun _ _ => (9, 9, 9, 9)⟩

/-- Claim C1: for every source image whose width and height are divisible by
the tile size (`cols = width/tileW`, `rows = height/tileH`), `extrude`
produces an output of width `2*border + cols*(tileW + 2*extrude + spacing)
- spacing` and height `2*border + rows*(tileW + 2*extrude + spacing) -
spacing`, with `tileW = tileH = 16`, `extrude = 1`, `border = 1`,
`spacing = 0`. -/
theorem C1_output_dims (im : Img) (hw : im.w % 16 = 0) (hh : im.h % 16 = 0) :
    ∃ o : Img, extrude grassyCfg im = Except.ok o ∧
      o.w = 2*1 + (im.w / 16) * (16 + 2*1 + 0) - 0 ∧
      o.h = 2*1 + (im.h / 16) * (16 + 2*1 + 0) - 0 := by
  refine ⟨buildOutput grassyCfg im, extrude_ok_of_div im hw hh, ?_, ?_⟩
  · rw [buildOutput_w]
    simp only [out_w, step_grassy, grassyCfg_BORDER, grassyCfg_SPACING, grassyCfg_TILE_W]
  · rw [buildOutput_h]
    simp only [out_h, step_grassy, grassyCfg_BORDER, grassyCfg_SPACING, grassyCfg_TILE_H]

theorem C1_output_dims_witness :
    sampleIm.w % 16 = 0 ∧ sampleIm.h % 16 = 0 ∧
      ∃ o : Img, extrude grassyCfg sampleIm = Except.ok o ∧
        o.w = 2*1 + (sampleIm.w / 16) * (16 + 2*1 + 0) - 0 ∧
        o.h = 2*1 + (sampleIm.h / 16) * (16 + 2*1 + 0) - 0 :=
  ⟨rfl, rfl, C1_output_dims sampleIm rfl rfl⟩

/-- Claim C2: `extrude` fails with the grid-mismatch error (the modelled
`SystemExit`: the process terminates with nonzero status and no output
image is produced) iff the source width or height is not divisible by the
tile size; the error message reports the actual dimensions `WxH` and the
expected grid `16x16`; conversely an output image is produced iff both
dimensions divide. -/
theorem C2_grid_mismatch (im : Img) :
    (extrude grassyCfg im =
        Except.error ("Input is not a tight 16x16 grid: " ++
          toString im.w ++ "x" ++ toString im.h)
      ↔ (im.w % 16 ≠ 0 ∨ im.h % 16 ≠ 0)) ∧
    ((∃ o, extrude grassyCfg im = Except.ok o) ↔
      (im.w % 16 = 0 ∧ im.h % 16 = 0)) := by
  by_cases hc : im.w / 16 * 16 ≠ im.w ∨ im.h / 16 * 16 ≠ im.h
  · have herr : extrude grassyCfg im =
        Except.error ("Input is not a tight 16x16 grid: " ++
          toString im.w ++ "x" ++ toString im.h) := by
      simp only [extrude, grassyCfg_TILE_W, grassyCfg_TILE_H]
      rw [if_pos hc]
      have hpre : "Input is not a tight " ++ toString (16 : Nat) ++ "x" ++
          toString (16 : Nat) ++ " grid: " = "Input is not a tight 16x16 grid: " := rfl
      rw [hpre]
    constructor
    · exact ⟨fun _ => by omega, fun _ => herr⟩
    · constructor
      · rintro ⟨o, ho⟩
        rw [herr] at ho
        exact Except.noConfusion ho
      · intro hdiv
        exfalso
        omega
  · push_neg at hc
    have hok : extrude grassyCfg im = Except.ok (buildOutput grassyCfg im) :=
      extrude_ok_of_div im (by omega) (by omega)
    constructor
    · constructor
      · intro he
        rw [hok] at he
        exact Except.noConfusion he
      · intro hne
        exfalso
        omega
    · exact ⟨fun _ => by omega, fun _ => ⟨buildOutput grassyCfg im, hok⟩⟩

theorem C2_grid_mismatch_witness :
    extrude grassyCfg badIm =
      Except.error ("Input is not a tight 16x16 grid: " ++
        toString badIm.w ++ "x" ++ toString badIm.h) ∧
    ¬ ∃ o, extrude grassyCfg badIm = Except.ok o := by
  refine ⟨(C2_grid_mismatch badIm).1.mpr (Or.inl (by decide)), fun ho => ?_⟩
  have h := (C2_grid_mismatch badIm).2.mp ho
  exact absurd h.1 (by decide)

/-- Claim C3: for every tessellating source, tile `(cx, cy)` and in-tile
offset `(u, v)` with `0 ≤ u < tileW`, `0 ≤ v < tileH`, the output pixel at
`(border + cx*step + extrude + u, border + cy*step + extrude + v)` equals
the source pixel at `(cx*tileW + u, cy*tileH + v)`; in particular at
`u = v = 0` the pixel at the tile's destination origin equals the pixel at
the source tile's origin. -/
theorem C3_core_copy (im : Img) (hw : im.w % 16 = 0) (hh : im.h % 16 = 0)
    (cx cy u v : Nat) (hcx : cx < im.w / 16) (hcy : cy < im.h / 16)
    (hu : u < 16) (hv : v < 16) :
    extrude grassyCfg im = Except.ok (buildOutput grassyCfg im) ∧
    (buildOutput grassyCfg im).px
        (1 + 18*(cx : Int) + 1 + (u : Int)) (1 + 18*(cy : Int) + 1 + (v : Int)) =
      im.px ((cx : Int)*16 + (u : Int)) ((cy : Int)*16 + (v : Int)) := by
  refine ⟨extrude_ok_of_div im hw hh, ?_⟩
  rw [buildOutput_px_hit im cx cy hcx hcy _ _ (by rw [inRegion_grassy_iff]; omega)]
  exact congrArg₂ im.px (by omega) (by omega)

theorem C3_core_copy_witness :
    sampleIm.w % 16 = 0 ∧ sampleIm.h % 16 = 0 ∧
      (1 : Nat) < sampleIm.w / 16 ∧ (0 : Nat) < sampleIm.h / 16 ∧
      (3 : Nat) < 16 ∧ (5 : Nat) < 16 ∧
      (extrude grassyCfg sampleIm = Except.ok (buildOutput grassyCfg sampleIm) ∧
        (buildOutput grassyCfg sampleIm).px
            (1 + 18*((1 : Nat) : Int) + 1 + ((3 : Nat) : Int))
            (1 + 18*((0 : Nat) : Int) + 1 + ((5 : Nat) : Int)) =
          sampleIm.px (((1 : Nat) : Int)*16 + ((3 : Nat) : Int))
            (((0 : Nat) : Int)*16 + ((5 : Nat) : Int))) :=
  ⟨rfl, rfl, by decide, by decide, by decide, by decide,
    C3_core_copy sampleIm rfl rfl 1 0 3 5 (by decide) (by decide) (by decide) (by decide)⟩

/-- Claim C4: for every tessellating source and every tile, the extrude
column immediately left of the tile's destination rectangle equals, at
every row, the tile's leftmost-column pixel of that row; the right strip
replicates the rightmost column, the top strip the topmost row and the
bottom strip the bottommost row (pixel-exact repetition, `extrude = 1`). -/
theorem C4_edge_strips (im : Img) (hw : im.w % 16 = 0) (hh : im.h % 16 = 0)
    (cx cy : Nat) (hcx : cx < im.w / 16) (hcy : cy < im.h / 16) :
    extrude grassyCfg im = Except.ok (buildOutput grassyCfg im) ∧
    (∀ v : Nat, v < 16 →
      (buildOutput grassyCfg im).px (1 + 18*(cx : Int)) (2 + 18*(cy : Int) + (v : Int)) =
        im.px ((cx : Int)*16) ((cy : Int)*16 + (v : Int))) ∧
    (∀ v : Nat, v < 16 →
      (buildOutput grassyCfg im).px (18 + 18*(cx : Int)) (2 + 18*(cy : Int) + (v : Int)) =
        im.px ((cx : Int)*16 + 15) ((cy : Int)*16 + (v : Int))) ∧
    (∀ u : Nat, u < 16 →
      (buildOutput grassyCfg im).px (2 + 18*(cx : Int) + (u : Int)) (1 + 18*(cy : Int)) =
        im.px ((cx : Int)*16 + (u : Int)) ((cy : Int)*16)) ∧
    (∀ u : Nat, u < 16 →
      (buildOutput grassyCfg im).px (2 + 18*(cx : Int) + (u : Int)) (18 + 18*(cy : Int)) =
        im.px ((cx : Int)*16 + (u : Int)) ((cy : Int)*16 + 15)) := by
  refine ⟨extrude_ok_of_div im hw hh, fun v hv => ?_, fun v hv => ?_,
    fun u hu => ?_, fun u hu => ?_⟩ <;>
    · rw [buildOutput_px_hit im cx cy hcx hcy _ _ (by rw [inRegion_grassy_iff]; omega)]
      exact congrArg₂ im.px (by omega) (by omega)

theorem C4_edge_strips_witness :
    sampleIm.w % 16 = 0 ∧ sampleIm.h % 16 = 0 ∧
      (0 : Nat) < sampleIm.w / 16 ∧ (1 : Nat) < sampleIm.h / 16 ∧
      ((buildOutput grassyCfg sampleIm).px (1 + 18*((0 : Nat) : Int))
          (2 + 18*((1 : Nat) : Int) + ((4 : Nat) : Int)) =
        sampleIm.px (((0 : Nat) : Int)*16) (((1 : Nat) : Int)*16 + ((4 : Nat) : Int))) :=
  ⟨rfl, rfl, by decide, by decide,
    (C4_edge_strips sampleIm rfl rfl 0 1 (by decide) (by decide)).2.1 4 (by decide)⟩

/-- Claim C5: for every tessellating source and every tile, the four
`extrude × extrude` corner blocks diagonally adjacent to the tile are flat
fills of the tile's corresponding corner pixels (`extrude = 1`, so each
block is the single pixel diagonally adjacent to the tile's corner). -/
theorem C5_corner_blocks (im : Img) (hw : im.w % 16 = 0) (hh : im.h % 16 = 0)
    (cx cy : Nat) (hcx : cx < im.w / 16) (hcy : cy < im.h / 16) :
    extrude grassyCfg im = Except.ok (buildOutput grassyCfg im) ∧
    ((buildOutput grassyCfg im).px (1 + 18*(cx : Int)) (1 + 18*(cy : Int)) =
      im.px ((cx : Int)*16) ((cy : Int)*16)) ∧
    ((buildOutput grassyCfg im).px (18 + 18*(cx : Int)) (1 + 18*(cy : Int)) =
      im.px ((cx : Int)*16 + 15) ((cy : Int)*16)) ∧
    ((buildOutput grassyCfg im).px (1 + 18*(cx : Int)) (18 + 18*(cy : Int)) =
      im.px ((cx : Int)*16) ((cy : Int)*16 + 15)) ∧
    ((buildOutput grassyCfg im).px (18 + 18*(cx : Int)) (18 + 18*(cy : Int)) =
      im.px ((cx : Int)*16 + 15) ((cy : Int)*16 + 15)) := by
  refine ⟨extrude_ok_of_div im hw hh, ?_, ?_, ?_, ?_⟩ <;>
    · rw [buildOutput_px_hit im cx cy hcx hcy _ _ (by rw [inRegion_grassy_iff]; omega)]
      exact congrArg₂ im.px (by omega) (by omega)

theorem C5_corner_blocks_witness :
    sampleIm.w % 16 = 0 ∧ sampleIm.h % 16 = 0 ∧
      (1 : Nat) < sampleIm.w / 16 ∧ (1 : Nat) < sampleIm.h / 16 ∧
      ((buildOutput grassyCfg sampleIm).px (1 + 18*((1 : Nat) : Int))
          (1 + 18*((1 : Nat) : Int)) =
        sampleIm.px (((1 : Nat) : Int)*16) (((1 : Nat) : Int)*16)) :=
  ⟨rfl, rfl, by decide, by decide,
    (C5_corner_blocks sampleIm rfl rfl 1 1 (by decide) (by decide)).2.1⟩

/-- Claim C6: a 32×32 source is a 2×2 grid of 16×16 tiles; with
`extrude = 1`, `border = 1`, `spacing = 0` the output is 38×38 and the core
of tile `(0, 0)` occupies exactly the output rectangle `(2, 2)`–`(17, 17)`
(pixel `(2+u, 2+v)` equals source pixel `(u, v)` for `u, v < 16`). -/
theorem C6_scenario (im : Img) (hw : im.w = 32) (hh : im.h = 32) :
    extrude grassyCfg im = Except.ok (buildOutput grassyCfg im) ∧
    (buildOutput grassyCfg im).w = 38 ∧ (buildOutput grassyCfg im).h = 38 ∧
    (∀ u v : Nat, u < 16 → v < 16 →
      (buildOutput grassyCfg im).px (2 + (u : Int)) (2 + (v : Int)) =
        im.px (u : Int) (v : Int)) := by
  refine ⟨extrude_ok_of_div im (by omega) (by omega), ?_, ?_, ?_⟩
  · rw [buildOutput_w, hw]
    rfl
  · rw [buildOutput_h, hh]
    rfl
  · intro u v hu hv
    rw [buildOutput_px_hit im 0 0 (by omega) (by omega) _ _
      (by rw [inRegion_grassy_iff]; push_cast; omega)]
    exact congrArg₂ im.px (by push_cast; omega) (by push_cast; omega)

theorem C6_scenario_witness :
    sampleIm.w = 32 ∧ sampleIm.h = 32 ∧
      (extrude grassyCfg sampleIm = Except.ok (buildOutput grassyCfg sampleIm) ∧
       (buildOutput grassyCfg sampleIm).w = 38 ∧
       (buildOutput grassyCfg sampleIm).h = 38 ∧
       (∀ u v : Nat, u < 16 → v < 16 →
         (buildOutput grassyCfg sampleIm).px (2 + (u : Int)) (2 + (v : Int)) =
           sampleIm.px (u : Int) (v : Int))) :=
  ⟨rfl, rfl, C6_scenario sampleIm rfl rfl⟩

/-- Claim C7: with the script's tile geometry (`tileW = tileH = 16`,
`extrude = 1`) and any non-negative border `b` and spacing `s`, the
extruded regions (core plus extrusion ring, including corner blocks) of two
distinct tiles never overlap: no output coordinate lies in both. -/
theorem C7_regions_disjoint (b s : Nat) (im : Img)
    (_hw : im.w % 16 = 0) (_hh : im.h % 16 = 0)
    (cx cy cx' cy' : Nat) (hne : (cx, cy) ≠ (cx', cy')) (x y : Int)
    (h : inRegion ⟨16, 16, 1, b, s⟩ cx cy x y) :
    ¬ inRegion ⟨16, 16, 1, b, s⟩ cx' cy' x y := by
  intro h'
  unfold inRegion at h h'
  simp only [step] at h h'
  push_cast at h h'
  obtain ⟨h1, h2, h3, h4⟩ := h
  obtain ⟨h5, h6, h7, h8⟩ := h'
  have key : ∀ a a' : Nat, a < a' →
      (b : Int) + (a : Int) * (16 + 2*1 + (s : Int)) + (16 + 2*1) ≤
        (b : Int) + (a' : Int) * (16 + 2*1 + (s : Int)) := by
    intro a a' haa
    have h9 : ((a : Int) + 1) ≤ (a' : Int) := by exact_mod_cast haa
    have hpos : (0 : Int) ≤ 16 + 2*1 + (s : Int) := by
      have : (0 : Int) ≤ (s : Int) := by exact_mod_cast Nat.zero_le s
      linarith
    have h10 : ((a : Int) + 1) * (16 + 2*1 + (s : Int)) ≤
        (a' : Int) * (16 + 2*1 + (s : Int)) :=
      mul_le_mul_of_nonneg_right h9 hpos
    have h11 : ((a : Int) + 1) * (16 + 2*1 + (s : Int)) =
        (a : Int) * (16 + 2*1 + (s : Int)) + (16 + 2*1 + (s : Int)) := by ring
    have hs : (0 : Int) ≤ (s : Int) := by exact_mod_cast Nat.zero_le s
    linarith
  have hxy : cx ≠ cx' ∨ cy ≠ cy' := by
    by_contra hcon
    push_neg at hcon
    exact hne (by rw [hcon.1, hcon.2])
  rcases hxy with hcc | hcc
  · rcases Nat.lt_or_ge cx cx' with hlt | hge
    · linarith [key cx cx' hlt]
    · have hlt' : cx' < cx := by omega
      linarith [key cx' cx hlt']
  · rcases Nat.lt_or_ge cy cy' with hlt | hge
    · linarith [key cy cy' hlt]
    · have hlt' : cy' < cy := by omega
      linarith [key cy' cy hlt']

theorem C7_regions_disjoint_witness :
    ((0, 0) : Nat × Nat) ≠ (1, 0) ∧
    inRegion ⟨16, 16, 1, 1, 0⟩ 0 0 5 5 ∧
    ¬ inRegion ⟨16, 16, 1, 1, 0⟩ 1 0 5 5 := by
  have hin : inRegion ⟨16, 16, 1, 1, 0⟩ 0 0 5 5 := by
    unfold inRegion
    simp only [step]
    decide
  exact ⟨by decide, hin,
    C7_regions_disjoint 1 0 sampleIm rfl rfl 0 0 1 0 (by decide) 5 5 hin⟩

/-! ## Order irrelevance -/

theorem applyTiles_w (im o : Img) (l : List (Nat × Nat)) :
    (applyTiles im o l).w = o.w := by
  unfold applyTiles
  refine foldl_w _ ?_ l o
  intro o2 p
  exact copy_tile_w grassyCfg im o2 p.1 p.2

theorem applyTiles_h (im o : Img) (l : List (Nat × Nat)) :
    (applyTiles im o l).h = o.h := by
  unfold applyTiles
  refine foldl_h _ ?_ l o
  intro o2 p
  exact copy_tile_h grassyCfg im o2 p.1 p.2

theorem Img.eq_of (a b : Img) (hw : a.w = b.w) (hh : a.h = b.h)
    (hpx : ∀ x y : Int, a.px x y = b.px x y) : a = b := by
  cases a
  cases b
  simp only [Img.mk.injEq]
  exact ⟨hw, hh, funext fun x => funext fun y => hpx x y⟩

/-- Claim C8: the order in which tiles are processed does not matter: for a
tessellating source, running `copy_tile` over any permutation of the
row-major coordinate list, starting from the fresh transparent canvas,
yields the same output image as the script's loop. -/
theorem C8_order_irrelevant (im : Img) (_hw : im.w % 16 = 0) (_hh : im.h % 16 = 0)
    (l : List (Nat × Nat))
    (hperm : l.Perm (rowMajor (im.w / 16) (im.h / 16))) :
    applyTiles im
        (Img.new (out_w grassyCfg (im.w / 16)) (out_h grassyCfg (im.h / 16)) (0, 0, 0, 0)) l
      = buildOutput grassyCfg im := by
  rw [buildOutput_eq_applyTiles]
  refine Img.eq_of _ _ ?_ ?_ ?_
  · rw [applyTiles_w, applyTiles_w]
  · rw [applyTiles_h, applyTiles_h]
  · intro x y
    by_cases hex : ∃ p : Nat × Nat, p ∈ rowMajor (im.w / 16) (im.h / 16) ∧
        inRegion grassyCfg p.1 p.2 x y
    · obtain ⟨p, hmem, hin⟩ := hex
      rw [applyTiles_px_hit im p.1 p.2 x y hin l _
            (hperm.mem_iff.mpr hmem) (hperm.nodup_iff.mpr (rowMajor_nodup _ _)),
          applyTiles_px_hit im p.1 p.2 x y hin (rowMajor (im.w / 16) (im.h / 16)) _
            hmem (rowMajor_nodup _ _)]
    · push_neg at hex
      rw [applyTiles_px_frame im l _ x y (fun p hp => hex p (hperm.mem_iff.mp hp)),
          applyTiles_px_frame im (rowMajor (im.w / 16) (im.h / 16)) _ x y hex]

theorem C8_order_irrelevant_witness :
    applyTiles sampleIm
        (Img.new (out_w grassyCfg (sampleIm.w / 16)) (out_h grassyCfg (sampleIm.h / 16))
          (0, 0, 0, 0))
        ((rowMajor (sampleIm.w / 16) (sampleIm.h / 16)).reverse)
      = buildOutput grassyCfg sampleIm :=
  C8_order_irrelevant sampleIm rfl rfl _
    (List.reverse_perm (rowMajor (sampleIm.w / 16) (sampleIm.h / 16)))

/-- Claim C9: every pixel of the output that lies outside all tiles'
extruded regions (outer border margin and any spacing gaps) keeps the
initial fully transparent value `(0, 0, 0, 0)` of the fresh canvas; the
tile-copy operations never write outside their own extruded rectangles. -/
theorem C9_outside_transparent (im : Img) (_hw : im.w % 16 = 0) (_hh : im.h % 16 = 0)
    (x y : Int) (_hx0 : 0 ≤ x) (_hx1 : x < (out_w grassyCfg (im.w / 16) : Int))
    (_hy0 : 0 ≤ y) (_hy1 : y < (out_h grassyCfg (im.h / 16) : Int))
    (hout : ∀ cx cy : Nat, cx < im.w / 16 → cy < im.h / 16 →
      ¬ inRegion grassyCfg cx cy x y) :
    (buildOutput grassyCfg im).px x y = (0, 0, 0, 0) :=
  buildOutput_px_frame im x y hout

theorem C9_outside_transparent_witness :
    (0 : Int) ≤ 0 ∧ (0 : Int) < (out_w grassyCfg (sampleIm.w / 16) : Int) ∧
    (0 : Int) < (out_h grassyCfg (sampleIm.h / 16) : Int) ∧
    (buildOutput grassyCfg sampleIm).px 0 0 = (0, 0, 0, 0) := by
  refine ⟨le_refl 0, by decide, by decide, ?_⟩
  refine C9_outside_transparent sampleIm rfl rfl 0 0 (le_refl 0) (by decide)
    (le_refl 0) (by decide) ?_
  intro cx cy _ _ hin
  rw [inRegion_grassy_iff] at hin
  omega

/-- The set of output coordinates written by `copy_tile(cx, cy)` at the
fixed configuration, read off from the five `paste` boxes and the four
corner `putpixel`s (with `dx = 2 + 18*cx`, `dy = 2 + 18*cy`, `EXTRUDE = 1`
so the corner loops run once with `ox = oy = 0`):
the 16×16 core at `(dx, dy)`, the 1×16 left strip at `(dx-1, dy)`, the
1×16 right strip at `(dx+16, dy)`, the 16×1 top strip at `(dx, dy-1)`, the
16×1 bottom strip at `(dx, dy+16)`, and the four corner pixels
`(dx-1-ox | dx+16+ox, dy-1-oy | dy+16+oy)`. -/
def isWriteTarget (cx cy : Nat) (x y : Int) : Prop :=
  (2 + 18*(cx : Int) ≤ x ∧ x < 2 + 18*(cx : Int) + 16 ∧
   2 + 18*(cy : Int) ≤ y ∧ y < 2 + 18*(cy : Int) + 16) ∨
  (x = 2 + 18*(cx : Int) - 1 ∧ 2 + 18*(cy : Int) ≤ y ∧ y < 2 + 18*(cy : Int) + 16) ∨
  (x = 2 + 18*(cx : Int) + 16 ∧ 2 + 18*(cy : Int) ≤ y ∧ y < 2 + 18*(cy : Int) + 16) ∨
  (2 + 18*(cx : Int) ≤ x ∧ x < 2 + 18*(cx : Int) + 16 ∧ y = 2 + 18*(cy : Int) - 1) ∨
  (2 + 18*(cx : Int) ≤ x ∧ x < 2 + 18*(cx : Int) + 16 ∧ y = 2 + 18*(cy : Int) + 16) ∨
  ((x = 2 + 18*(cx : Int) - 1 ∨ x = 2 + 18*(cx : Int) + 16) ∧
   (y = 2 + 18*(cy : Int) - 1 ∨ y = 2 + 18*(cy : Int) + 16))

/-- Claim C10: under the tessellation precondition and the fixed
configuration, every pixel write performed while populating the output —
the core paste, the four edge-strip pastes and every corner `putpixel` —
targets a coordinate strictly inside `[0, out_w) × [0, out_h)`. -/
theorem C10_writes_in_bounds (im : Img) (_hw : im.w % 16 = 0) (_hh : im.h % 16 = 0)
    (cx cy : Nat) (hcx : cx < im.w / 16) (hcy : cy < im.h / 16) (x y : Int)
    (h : isWriteTarget cx cy x y) :
    0 ≤ x ∧ x < (out_w grassyCfg (im.w / 16) : Int) ∧
    0 ≤ y ∧ y < (out_h grassyCfg (im.h / 16) : Int) := by
  have how : out_w grassyCfg (im.w / 16) = 1*2 + (im.w / 16) * 18 - 0 := by
    simp only [out_w, step_grassy, grassyCfg_BORDER, grassyCfg_SPACING]
  have hoh : out_h grassyCfg (im.h / 16) = 1*2 + (im.h / 16) * 18 - 0 := by
    simp only [out_h, step_grassy, grassyCfg_BORDER, grassyCfg_SPACING]
  unfold isWriteTarget at h
  rw [how, hoh]
  omega

theorem C10_writes_in_bounds_witness :
    (0 : Nat) < sampleIm.w / 16 ∧ (1 : Nat) < sampleIm.h / 16 ∧
    isWriteTarget 0 1 1 19 ∧
    ((0 : Int) ≤ 1 ∧ (1 : Int) < (out_w grassyCfg (sampleIm.w / 16) : Int) ∧
     (0 : Int) ≤ 19 ∧ (19 : Int) < (out_h grassyCfg (sampleIm.h / 16) : Int)) := by
  have hwt : isWriteTarget 0 1 1 19 := by
    unfold isWriteTarget
    decide
  exact ⟨by decide, by decide, hwt,
    C10_writes_in_bounds sampleIm rfl rfl 0 1 (by decide) (by decide) 1 19 hwt⟩
